import Mathlib

/-!
# Verification of `sopel-contextualreminders`

A shallow embedding of the reminder lifecycle engine of the
`sopel-contextualreminders` plugin (files `ctx_service.py`, `plugin.py`,
`types.py`), together with theorems settling the frozen claims about it.

Modelling conventions:
* `datetime` values are modelled as microseconds on a linear timeline
  (`Int`); `isoformat(timespec="seconds")` followed by `fromisoformat`
  is modelled as truncation of the microsecond component.
* `timedelta` values are microsecond counts (`Int`);
  `timedelta.total_seconds()` is the exact rational value.
* Python dicts (`bot.memory[...]["reminders"]`, `["context_buffer"]`,
  JSON objects) are insertion-ordered association lists.
* Python exceptions (`KeyError` from a dict index, `json.JSONDecodeError`
  from `json.load`, `ValueError` from parsing) are modelled with
  `Except Unit` / `Option` results.
-/

namespace CtxReminders

/-- A UTC timestamp, as microseconds on a linear timeline
(`datetime` objects compare and subtract like this). -/
abbrev DateTime := Int

/-- A `datetime.timedelta`, as a signed count of microseconds. -/
abbrev TimeDelta := Int

/-- `timedelta.total_seconds()`: the exact number of seconds as a rational. -/
def totalSeconds (d : TimeDelta) : ℚ := (d : ℚ) / 1000000

/-- `datetime.isoformat(timespec="seconds")` followed by
`datetime.fromisoformat`: the textual round trip through the persistence
file keeps the whole-second part and drops the microsecond component
(a `datetime`'s microsecond field is in `[0, 10^6)`, so this is flooring). -/
def isoSecondsRoundTrip (t : DateTime) : DateTime :=
  (t.ediv 1000000) * 1000000

/-- `ContextualReminder` from `types.py`: a dataclass with `eq=True`,
so two reminders are equal exactly when all eight fields are equal. -/
structure ContextualReminder where
  set_at : DateTime
  due_at : DateTime
  nickname : String
  channel : String
  message : String
  pastebin_url : String
  has_context : Bool
  context_lines : List String
deriving DecidableEq, Repr

/-- The in-memory reminder store `bot.memory[...]["reminders"]`:
an insertion-ordered mapping from conversation identifier (channel)
to the ordered list of reminders for that conversation. -/
abbrev Store := List (String × List ContextualReminder)

/-- The per-conversation context buffers
`bot.memory[...]["context_buffer"]`. -/
abbrev ContextBuffer := List (String × List String)

/-- Python `key in dict` / `dict[key]` lookup on an insertion-ordered
association list: the first binding of the key. -/
def alistLookup {β : Type} (l : List (String × β)) (k : String) : Option β :=
  match l.find? (fun p => p.1 = k) with
  | some p => some p.2
  | none => none

/-- The abstract state of a `Trigger` as the plugin consumes it:
the sender (channel name, or the sender's nick for a private message),
whether the sender is a nick (`trigger.sender.is_nick()`), the event
time, the sender's nick and the sender's full hostmask. -/
structure Trigger where
  sender : String
  senderIsNick : Bool
  time : DateTime
  nick : String
  hostmask : String

/-- `get_channel_from_sender` (`ctx_service.py` lines 102-114): the
conversation identifier used to key the context buffer — the channel
name, or `PRIVMSG-<hostmask>` for a private message. -/
def get_channel_from_sender (trigger : Trigger) : String :=
  if trigger.senderIsNick then "PRIVMSG-" ++ trigger.hostmask
  else trigger.sender

/-- `capture_context_snapshot` (`ctx_service.py` lines 276-281): a raw
dict index into the context buffer; an unknown conversation raises
`KeyError`, modelled as `Except.error`. -/
def capture_context_snapshot (buffer : ContextBuffer) (channel_name : String) :
    Except Unit (List String) :=
  match alistLookup buffer channel_name with
  | some lines => Except.ok lines
  | none => Except.error ()

/-- `create_reminder` (`ctx_service.py` lines 239-274).  The function
receives a `channel` argument but immediately shadows it with
`trigger.sender`, or with the constant string `"PRIVMSG"` when the sender
is a nick.  Configuration is passed as the values of
`context_capture_min_duration or 0` / `context_capture_max_duration or 0`;
`snapshot_ts` is the formatted `datetime.utcnow()` string.  A duration
inside the closed capture interval takes a context snapshot, which
raises `KeyError` (an error result) when the conversation has no buffer
entry. -/
def create_reminder (conf_min_delta conf_max_delta : ℚ)
    (buffer : ContextBuffer) (snapshot_ts : String)
    (trigger : Trigger) (time_delta : TimeDelta)
    (channel : String) (message : String) :
    Except Unit ContextualReminder :=
  let channel := if trigger.senderIsNick then "PRIVMSG" else trigger.sender
  let reminder : ContextualReminder :=
    { set_at := trigger.time
      due_at := trigger.time + time_delta
      nickname := trigger.nick
      channel := channel
      message := message
      pastebin_url := ""
      has_context := false
      context_lines := [] }
  if conf_min_delta ≤ totalSeconds time_delta ∧
      totalSeconds time_delta ≤ conf_max_delta then
    match capture_context_snapshot buffer channel with
    | Except.error _ => Except.error ()
    | Except.ok snapshot =>
        Except.ok { reminder with
          has_context := true
          context_lines :=
            ("Snapshot for " ++ channel ++ " created at " ++ snapshot_ts
              ++ " (UTC)")
            :: "---------------------------------------------------------------"
            :: snapshot
            ++ ["-----------------------------//--------------------------------"] }
  else
    Except.ok reminder

end CtxReminders

namespace CtxReminders

/-! ## Claim theorems: C1, C4 -/

/-- A private-message trigger from the identity `alice!au@host-a`. -/
def triggerAlice : Trigger :=
  { sender := "alice", senderIsNick := true, time := 1000000000
    nick := "alice", hostmask := "alice!au@host-a" }

/-- A private-message trigger from the distinct identity `bob!bu@host-b`. -/
def triggerBob : Trigger :=
  { sender := "bob", senderIsNick := true, time := 2000000000
    nick := "bob", hostmask := "bob!bu@host-b" }

/-- The conversation identifier stored in a successfully created
reminder, if any. -/
def storedChannel : Except Unit ContextualReminder → Option String
  | Except.ok r => some r.channel
  | Except.error _ => none

/-- C1: the claim (and the spec) say a reminder created from a private
conversation stores a conversation identifier derived from the sender's
hostmask, distinct for distinct sender identities.  The code violates
this: `create_reminder` discards the hostmask-derived `channel` argument
produced by `get_channel_from_sender` and stores the constant string
`"PRIVMSG"` for every private sender.  Evaluated at two triggers with
distinct hostmasks (a zero-length duration so no context snapshot is
attempted): both stored identifiers are the collapsed `"PRIVMSG"`, equal
to each other and unrelated to the hostmask-derived buffer keys that
`get_channel_from_sender` produced for the same triggers. -/
theorem c1_private_channel_collapses :
    storedChannel (create_reminder 30 60 [] "ts" triggerAlice 0
        (get_channel_from_sender triggerAlice) "m1") = some "PRIVMSG" ∧
    storedChannel (create_reminder 30 60 [] "ts" triggerBob 0
        (get_channel_from_sender triggerBob) "m2") = some "PRIVMSG" ∧
    triggerAlice.hostmask ≠ triggerBob.hostmask ∧
    get_channel_from_sender triggerAlice ≠ get_channel_from_sender triggerBob := by
  refine ⟨?_, ?_, by decide, by decide⟩ <;>
    norm_num [storedChannel, create_reminder, totalSeconds,
      capture_context_snapshot, triggerAlice, triggerBob,
      get_channel_from_sender]

/-- C4 (counterexample to the claim): taking a context snapshot of a
conversation that has never had a line appended does not return the
empty sequence — `capture_context_snapshot` indexes the buffer dict
directly and raises `KeyError` (an error result) for the unknown
conversation `"#never-spoken"` in an empty buffer. -/
theorem c4_snapshot_unknown_conversation_raises :
    capture_context_snapshot [] "#never-spoken" = Except.error () := by
  rfl

/-! ## Claim C6: the context capture window -/

/-- C6: a duration whose total seconds lies in the closed interval
`[context_capture_min_duration, context_capture_max_duration]` yields a
reminder with `has_context = true` and non-empty `context_lines`
(whenever creation returns a reminder at all), and a duration strictly
outside the interval yields a reminder with `has_context = false` and
empty `context_lines`. -/
theorem c6_capture_window (conf_min conf_max : ℚ) (buffer : ContextBuffer)
    (ts : String) (trigger : Trigger) (time_delta : TimeDelta)
    (channel message : String) :
    (conf_min ≤ totalSeconds time_delta ∧ totalSeconds time_delta ≤ conf_max →
      ∀ r, create_reminder conf_min conf_max buffer ts trigger time_delta
          channel message = Except.ok r →
        r.has_context = true ∧ r.context_lines ≠ []) ∧
    (totalSeconds time_delta < conf_min ∨ conf_max < totalSeconds time_delta →
      ∃ r, create_reminder conf_min conf_max buffer ts trigger time_delta
          channel message = Except.ok r ∧
        r.has_context = false ∧ r.context_lines = []) := by
  constructor
  · intro h r hr
    simp only [create_reminder, if_pos h] at hr
    cases hcap : capture_context_snapshot buffer
        (if trigger.senderIsNick then "PRIVMSG" else trigger.sender) with
    | error e => rw [hcap] at hr; cases hr
    | ok snapshot =>
        rw [hcap] at hr
        cases hr
        exact ⟨rfl, by simp⟩
  · intro h
    have hcond : ¬ (conf_min ≤ totalSeconds time_delta ∧
        totalSeconds time_delta ≤ conf_max) := by
      rcases h with h | h
      · exact fun hc => absurd hc.1 (not_le.mpr h)
      · exact fun hc => absurd hc.2 (not_le.mpr h)
    exact ⟨{ set_at := trigger.time, due_at := trigger.time + time_delta
             nickname := trigger.nick
             channel := if trigger.senderIsNick then "PRIVMSG" else trigger.sender
             message := message, pastebin_url := "", has_context := false
             context_lines := [] },
           by simp only [create_reminder, if_neg hcond], rfl, rfl⟩

/-- A channel trigger used to instantiate the capture-window theorem. -/
def triggerChan : Trigger :=
  { sender := "#chan", senderIsNick := false, time := 5000000000
    nick := "carol", hostmask := "carol!cu@host-c" }

/-- Witness for `c6_capture_window`: with bounds `[30, 60]` seconds, a
40-second reminder in `#chan` (whose buffer holds one line) gets
`has_context = true` and non-empty `context_lines`. -/
theorem c6_capture_window_witness :
    ({ set_at := 5000000000, due_at := 5040000000, nickname := "carol"
       channel := "#chan", message := "msg", pastebin_url := ""
       has_context := true
       context_lines :=
         "Snapshot for #chan created at ts (UTC)"
         :: "---------------------------------------------------------------"
         :: "<@carol> hello"
         :: ["-----------------------------//--------------------------------"]
       : ContextualReminder }).has_context = true ∧
    ({ set_at := 5000000000, due_at := 5040000000, nickname := "carol"
       channel := "#chan", message := "msg", pastebin_url := ""
       has_context := true
       context_lines :=
         "Snapshot for #chan created at ts (UTC)"
         :: "---------------------------------------------------------------"
         :: "<@carol> hello"
         :: ["-----------------------------//--------------------------------"]
       : ContextualReminder }).context_lines ≠ [] :=
  (c6_capture_window 30 60 [("#chan", ["<@carol> hello"])] "ts" triggerChan
      40000000 "#chan" "msg").1
    (by norm_num [totalSeconds]) _
    (by
      have h : (30 : ℚ) ≤ totalSeconds 40000000 ∧
          totalSeconds 40000000 ≤ 60 := by norm_num [totalSeconds]
      simp only [create_reminder, if_pos h]
      rfl)

/-! ## Claim C8: the bounded context buffer -/

/-- The per-conversation step of `add_message_to_context_buffer`
(`ctx_service.py` lines 283-298): append the message, then pop the front
element when the list has grown beyond `context_capture_chat_lines`. -/
def boundedAppend (maximum_buffer_lines : Nat) (lines : List String)
    (message : String) : List String :=
  let lines := lines ++ [message]
  if maximum_buffer_lines < lines.length ∧ 1 ≤ lines.length then
    lines.drop 1
  else lines

/-- `add_message_to_context_buffer` (`ctx_service.py` lines 283-298) on
the whole buffer dict: create the conversation's entry if missing, then
append with the bound enforced. -/
def add_message_to_context_buffer (maximum_buffer_lines : Nat)
    (buffer : ContextBuffer) (channel message : String) : ContextBuffer :=
  let buffer :=
    if (alistLookup buffer channel).isSome then buffer
    else buffer ++ [(channel, [])]
  buffer.map (fun p =>
    if p.1 = channel then (p.1, boundedAppend maximum_buffer_lines p.2 message)
    else p)

/-- C8: a conversation's buffer never exceeds the configured capacity —
one append preserves the bound (so from the implicit empty buffer the
bound always holds), an append to a full buffer evicts exactly the
oldest line (FIFO), and for capacity 3 the appends `[a,b,c,d]` leave
`[b,c,d]`. -/
theorem c8_buffer_bounded_fifo :
    (∀ (cap : Nat) (lines : List String) (msg : String),
      lines.length ≤ cap → (boundedAppend cap lines msg).length ≤ cap) ∧
    (∀ (cap : Nat) (lines : List String) (msg : String),
      lines.length = cap → 1 ≤ cap →
      boundedAppend cap lines msg = lines.drop 1 ++ [msg]) ∧
    (∀ (cap : Nat) (msgs : List String),
      (msgs.foldl (boundedAppend cap) []).length ≤ cap) ∧
    (["a", "b", "c", "d"].foldl
        (fun buf m => add_message_to_context_buffer 3 buf "#chan" m) []
      = [("#chan", ["b", "c", "d"])]) := by
  have step : ∀ (cap : Nat) (lines : List String) (msg : String),
      lines.length ≤ cap → (boundedAppend cap lines msg).length ≤ cap := by
    intro cap lines msg h
    simp only [boundedAppend]
    by_cases hc : cap < (lines ++ [msg]).length ∧ 1 ≤ (lines ++ [msg]).length
    · rw [if_pos hc]
      simp only [List.length_append, List.length_singleton] at hc
      simp only [List.length_drop, List.length_append, List.length_singleton]
      omega
    · rw [if_neg hc]
      simp only [not_and, List.length_append, List.length_singleton] at hc
      simp only [List.length_append, List.length_singleton]
      omega
  refine ⟨step, ?_, ?_, by decide⟩
  · intro cap lines msg h hcap
    have hc : cap < (lines ++ [msg]).length ∧ 1 ≤ (lines ++ [msg]).length := by
      simp only [List.length_append, List.length_singleton]
      omega
    simp only [boundedAppend, if_pos hc]
    have hne : lines ≠ [] := by
      intro he; rw [he] at h; simp at h; omega
    cases lines with
    | nil => exact absurd rfl hne
    | cons x xs => simp
  · intro cap msgs
    induction msgs using List.reverseRecOn with
    | nil => simp
    | append_singleton xs x ih =>
        rw [List.foldl_append]
        exact step cap _ x ih

/-- Witness for `c8_buffer_bounded_fifo`: appending `"y"` to the
one-line buffer `["x"]` with capacity 2 keeps the length within 2. -/
theorem c8_buffer_bounded_fifo_witness :
    (boundedAppend 2 ["x"] "y").length ≤ 2 :=
  c8_buffer_bounded_fifo.1 2 ["x"] "y" (by decide)

/-! ## Persistence: serialization, the durable file, load and save -/

/-- One reminder record of the durable file, as written by
`ContextualReminder.serialize` (`types.py` lines 83-96).  The two
timestamps are stored as `isoformat(timespec="seconds")` text; each
text field is modelled by the `datetime` value it parses back to, which
is the original value with the microsecond component dropped. -/
structure SerializedReminder where
  set_at : DateTime
  due_at : DateTime
  nickname : String
  channel : String
  message : String
  pastebin_url : String
  has_context : Bool
  context_lines : List String
deriving DecidableEq, Repr

/-- `ContextualReminder.serialize` (`types.py` lines 83-96):
timestamps truncated to whole seconds, every other field copied. -/
def ContextualReminder.serialize (r : ContextualReminder) : SerializedReminder :=
  { set_at := isoSecondsRoundTrip r.set_at
    due_at := isoSecondsRoundTrip r.due_at
    nickname := r.nickname
    channel := r.channel
    message := r.message
    pastebin_url := r.pastebin_url
    has_context := r.has_context
    context_lines := r.context_lines }

/-- The JSON document of the durable file, as produced by
`save_reminders_to_persistence` (`ctx_service.py` lines 116-152):
a `reminders` mapping, a save timestamp and a format version.  A parsed
file may lack the `reminders` key (`none`). -/
structure PersistedDoc where
  reminders : Option (List (String × List SerializedReminder))
  saved_at : DateTime
  version : Int
deriving Repr

/-- What the scheduler finds on disk: no file at all, a file whose
contents `json.load` cannot parse, or a parsed JSON document. -/
inductive FileState where
  | missing : FileState
  | unparseable : FileState
  | parsed : PersistedDoc → FileState

/-- `save_reminders_to_persistence` (`ctx_service.py` lines 116-152):
the document written to the durable file — every reminder serialized,
the current time as `saved_at`, format version 1. -/
def save_reminders_to_persistence (reminders : Store) (now : DateTime) :
    PersistedDoc :=
  { reminders :=
      some (reminders.map fun p => (p.1, p.2.map ContextualReminder.serialize))
    saved_at := now
    version := 1 }

/-- The reminder rebuilt by `load_reminders_from_persistence` from one
record: `datetime.fromisoformat` on the timestamp texts (already
modelled by their parsed values), the other fields copied. -/
def decodeReminder (s : SerializedReminder) : ContextualReminder :=
  { set_at := s.set_at
    due_at := s.due_at
    nickname := s.nickname
    channel := s.channel
    message := s.message
    pastebin_url := s.pastebin_url
    has_context := s.has_context
    context_lines := s.context_lines }

/-- The dict mutation of the load loop (`ctx_service.py` lines 82-94):
`if channel not in reminders: reminders[channel] = []` followed by
`reminders[channel].append(...)` — append to the existing entry, or
create the key at the end (Python dicts keep insertion order). -/
def dictAppend (reminders : Store) (channel : String)
    (r : ContextualReminder) : Store :=
  if (alistLookup reminders channel).isSome then
    reminders.map fun p => if p.1 = channel then (p.1, p.2 ++ [r]) else p
  else reminders ++ [(channel, [r])]

/-- The two nested loops of `load_reminders_from_persistence`
(`ctx_service.py` lines 80-95): every record of every channel of the
file's `reminders` mapping appended into a fresh dict. -/
def loadEntries (entries : List (String × List SerializedReminder)) : Store :=
  entries.foldl
    (fun acc p => p.2.foldl (fun a s => dictAppend a p.1 (decodeReminder s)) acc)
    []

/-- `load_reminders_from_persistence` (`ctx_service.py` lines 54-100).
A missing file starts with the empty store (an info entry, no warning).
A file `json.load` cannot parse raises (`json.JSONDecodeError` is not
caught).  Parsed JSON without a `reminders` key yields the empty store
with a warning (the returned `Bool` records whether the malformed-file
warning was logged).  Otherwise the mapping is decoded. -/
def load_reminders_from_persistence (file : FileState) :
    Except Unit (Store × Bool) :=
  match file with
  | FileState.missing => Except.ok ([], false)
  | FileState.unparseable => Except.error ()
  | FileState.parsed doc =>
      match doc.reminders with
      | none => Except.ok ([], true)
      | some entries => Except.ok (loadEntries entries, false)

/-! ### Round-trip lemmas -/

theorem alistLookup_cons {β : Type} (k : String) (v : β)
    (l : List (String × β)) (ch : String) :
    alistLookup ((k, v) :: l) ch =
      if k = ch then some v else alistLookup l ch := by
  by_cases h : k = ch <;> simp [alistLookup, List.find?, h]

theorem alistLookup_append_right {β : Type} (pre l : List (String × β))
    (ch : String) (h : ∀ p ∈ pre, p.1 ≠ ch) :
    alistLookup (pre ++ l) ch = alistLookup l ch := by
  induction pre with
  | nil => rfl
  | cons q pre ih =>
      rw [List.cons_append, alistLookup_cons,
        if_neg (h q (List.mem_cons_self q pre)), ih]
      intro p hp
      exact h p (List.mem_cons_of_mem q hp)

theorem map_update_last (pre : Store) (ch : String)
    (ys : List ContextualReminder) (r : ContextualReminder)
    (h : ∀ p ∈ pre, p.1 ≠ ch) :
    ((pre ++ [(ch, ys)]).map fun p =>
        if p.1 = ch then (p.1, p.2 ++ [r]) else p)
      = pre ++ [(ch, ys ++ [r])] := by
  rw [List.map_append]
  congr 1
  · induction pre with
    | nil => rfl
    | cons q pre ih =>
        rw [List.map_cons, if_neg (h q (List.mem_cons_self q pre)), ih]
        intro p hp
        exact h p (List.mem_cons_of_mem q hp)
  · simp

theorem dictAppend_last (pre : Store) (ch : String)
    (ys : List ContextualReminder) (r : ContextualReminder)
    (h : ∀ p ∈ pre, p.1 ≠ ch) :
    dictAppend (pre ++ [(ch, ys)]) ch r = pre ++ [(ch, ys ++ [r])] := by
  have hl : alistLookup (pre ++ [(ch, ys)]) ch = some ys := by
    rw [alistLookup_append_right pre _ ch h, alistLookup_cons, if_pos rfl]
  rw [dictAppend, if_pos (by rw [hl]; rfl)]
  exact map_update_last pre ch ys r h

theorem dictAppend_new (acc : Store) (ch : String) (r : ContextualReminder)
    (h : ∀ p ∈ acc, p.1 ≠ ch) :
    dictAppend acc ch r = acc ++ [(ch, [r])] := by
  have hl : alistLookup acc ch = none := by
    induction acc with
    | nil => rfl
    | cons q acc ih =>
        rw [alistLookup_cons, if_neg (h q (List.mem_cons_self q acc)), ih]
        intro p hp
        exact h p (List.mem_cons_of_mem q hp)
  rw [dictAppend, if_neg (by rw [hl]; simp)]

theorem foldChannel (rs : List ContextualReminder) (pre : Store) (ch : String)
    (ys : List ContextualReminder) (h : ∀ p ∈ pre, p.1 ≠ ch) :
    rs.foldl (fun a r => dictAppend a ch r) (pre ++ [(ch, ys)])
      = pre ++ [(ch, ys ++ rs)] := by
  induction rs generalizing ys with
  | nil => simp
  | cons r rs ih =>
      rw [List.foldl_cons, dictAppend_last pre ch ys r h, ih (ys ++ [r])]
      simp

theorem decode_serialize (r : ContextualReminder)
    (h1 : isoSecondsRoundTrip r.set_at = r.set_at)
    (h2 : isoSecondsRoundTrip r.due_at = r.due_at) :
    decodeReminder r.serialize = r := by
  cases r
  simp_all [decodeReminder, ContextualReminder.serialize]

theorem loadEntries_save (store : Store) (acc : Store)
    (hnodup : (store.map Prod.fst).Nodup)
    (hdisj : ∀ p ∈ acc, ∀ q ∈ store, p.1 ≠ q.1)
    (hne : ∀ p ∈ store, p.2 ≠ [])
    (hsec : ∀ p ∈ store, ∀ r ∈ p.2,
      isoSecondsRoundTrip r.set_at = r.set_at ∧
      isoSecondsRoundTrip r.due_at = r.due_at) :
    (store.map fun p => (p.1, p.2.map ContextualReminder.serialize)).foldl
      (fun acc p =>
        p.2.foldl (fun a s => dictAppend a p.1 (decodeReminder s)) acc) acc
      = acc ++ store := by
  induction store generalizing acc with
  | nil => simp
  | cons q rest ih =>
      obtain ⟨ch, rs⟩ := q
      rw [List.map_cons, List.foldl_cons]
      have hinner :
          (rs.map ContextualReminder.serialize).foldl
            (fun a s => dictAppend a ch (decodeReminder s)) acc
          = acc ++ [(ch, rs)] := by
        rw [List.foldl_map]
        have hcongr :
            rs.foldl (fun a r => dictAppend a ch (decodeReminder r.serialize)) acc
            = rs.foldl (fun a r => dictAppend a ch r) acc := by
          apply List.foldl_ext
          intro a r hr
          have hs := hsec (ch, rs) (List.mem_cons_self _ _) r hr
          rw [decode_serialize r hs.1 hs.2]
        rw [hcongr]
        cases rs with
        | nil => exact absurd rfl (hne (ch, []) (List.mem_cons_self _ _))
        | cons r rs' =>
            rw [List.foldl_cons,
              dictAppend_new acc ch r
                (fun p hp => hdisj p hp (ch, r :: rs') (List.mem_cons_self _ _)),
              foldChannel rs' acc ch [r]
                (fun p hp => hdisj p hp (ch, r :: rs') (List.mem_cons_self _ _))]
            rfl
      rw [hinner]
      have hch : ch ∉ rest.map Prod.fst := by
        rw [List.map_cons] at hnodup
        exact (List.nodup_cons.mp hnodup).1
      rw [ih (acc ++ [(ch, rs)])
        (by rw [List.map_cons] at hnodup; exact (List.nodup_cons.mp hnodup).2)
        (by
          intro p hp q hq
          rcases List.mem_append.mp hp with hp | hp
          · exact hdisj p hp q (List.mem_cons_of_mem _ hq)
          · have : p = (ch, rs) := by simpa using hp
            subst this
            intro hc
            have hc' : ch = q.1 := hc
            exact hch (hc' ▸ List.mem_map_of_mem Prod.fst hq)
        )
        (fun p hp => hne p (List.mem_cons_of_mem _ hp))
        (fun p hp => hsec p (List.mem_cons_of_mem _ hp))]
      simp

/-! ## Claim C2: the save/load round trip -/

/-- C2 (amended): saving then loading is the identity on stores whose
channels are distinct keys with non-empty reminder lists and whose
timestamps carry no sub-second component.  (The unamended claim fails:
serialization truncates `set_at`/`due_at` to whole seconds, and a
channel holding an empty list is dropped by the load loop.) -/
theorem c2_save_load_roundtrip (store : Store) (now : DateTime)
    (hnodup : (store.map Prod.fst).Nodup)
    (hne : ∀ p ∈ store, p.2 ≠ [])
    (hsec : ∀ p ∈ store, ∀ r ∈ p.2,
      isoSecondsRoundTrip r.set_at = r.set_at ∧
      isoSecondsRoundTrip r.due_at = r.due_at) :
    load_reminders_from_persistence
        (FileState.parsed (save_reminders_to_persistence store now))
      = Except.ok (store, false) := by
  simp only [load_reminders_from_persistence, save_reminders_to_persistence,
    loadEntries]
  rw [loadEntries_save store [] hnodup (by simp) hne hsec]
  rfl

/-- A reminder whose `set_at` has a sub-second component (1.5 s after
the epoch of the timeline). -/
def reminderFractional : ContextualReminder :=
  { set_at := 1500000, due_at := 3000000, nickname := "dana"
    channel := "#c", message := "m", pastebin_url := ""
    has_context := false, context_lines := [] }

/-- C2 (counterexample to the claim as stated): saving and reloading
the store `{"#c": [reminderFractional]}` does not give back a
value-equal store — `isoformat(timespec="seconds")` truncates `set_at`
from 1.5 s to 1 s, so the loaded reminder differs from the original in
its `set_at` field. -/
theorem c2_roundtrip_counterexample :
    load_reminders_from_persistence
        (FileState.parsed
          (save_reminders_to_persistence [("#c", [reminderFractional])] 0))
      = Except.ok ([("#c", [{ reminderFractional with set_at := 1000000 }])],
          false) ∧
    ([("#c", [{ reminderFractional with set_at := 1000000 }])] : Store)
      ≠ [("#c", [reminderFractional])] :=
  ⟨rfl, by decide⟩

/-- A whole-second store instantiating the round-trip theorem. -/
def reminderWhole : ContextualReminder :=
  { set_at := 1000000, due_at := 3000000, nickname := "dana"
    channel := "#c", message := "m", pastebin_url := ""
    has_context := false, context_lines := [] }

/-- Witness for `c2_save_load_roundtrip`: the one-channel whole-second
store `{"#c": [reminderWhole]}` survives the round trip unchanged. -/
theorem c2_save_load_roundtrip_witness :
    load_reminders_from_persistence
        (FileState.parsed
          (save_reminders_to_persistence [("#c", [reminderWhole])] 7))
      = Except.ok ([("#c", [reminderWhole])], false) :=
  c2_save_load_roundtrip [("#c", [reminderWhole])] 7
    (by decide) (by decide) (by decide)

/-! ## Claim C5: loading a missing or garbled file -/

/-- C5 (counterexample to the claim as stated): a durable file whose
contents are not valid JSON does not load as an empty store —
`json.load` raises `json.JSONDecodeError` and
`load_reminders_from_persistence` does not catch it. -/
theorem c5_unparseable_file_raises :
    load_reminders_from_persistence FileState.unparseable
      = Except.error () := by
  rfl

/-- C5 (amended): a parsed JSON document lacking the `reminders`
mapping loads as the empty store with the malformed-file warning
recorded, without raising; a missing file also loads as the empty store
(with an info entry, not a warning).  Content that is not valid JSON
raises instead (see the counterexample). -/
theorem c5_load_missing_structure (doc : PersistedDoc)
    (h : doc.reminders = none) :
    load_reminders_from_persistence (FileState.parsed doc)
        = Except.ok ([], true) ∧
    load_reminders_from_persistence FileState.missing
        = Except.ok ([], false) := by
  constructor
  · simp only [load_reminders_from_persistence, h]
  · rfl

/-- Witness for `c5_load_missing_structure`: a version-1 document with
no `reminders` key loads as the empty store with the warning flag. -/
theorem c5_load_missing_structure_witness :
    load_reminders_from_persistence
        (FileState.parsed { reminders := none, saved_at := 0, version := 1 })
        = Except.ok ([], true) ∧
    load_reminders_from_persistence FileState.missing
        = Except.ok ([], false) :=
  c5_load_missing_structure { reminders := none, saved_at := 0, version := 1 }
    rfl

/-! ## Claim C3: pastebin reconciliation -/

/-- `create_pastebin_entries` (`ctx_service.py` lines 404-459), value
level: every selected reminder still lacking a URL receives one from
the external paste service (`urlOf` stands for the successful
`create_pastebin_url` call; the inter-call rate limiting and slow-call
diagnostics are wall-clock effects outside the value model).  In the
running program this mutates the reminder objects of the upcoming list
— which alias the objects held by the authoritative store — in place. -/
def create_pastebin_entries (urlOf : ContextualReminder → String)
    (upcoming_reminders : Store) : Store :=
  if upcoming_reminders.length = 0 then []
  else
    upcoming_reminders.map fun p =>
      (p.1, p.2.map fun r =>
        if r.pastebin_url.length = 0 then { r with pastebin_url := urlOf r }
        else r)

/-- `update_reminders_pastebin_url` (`ctx_service.py` lines 461-481):
for every stored reminder, scan the updated reminders of the same
channel for the first one equal to it (dataclass equality over all
eight fields, the updated reminder's `pastebin_url` included) and copy
that reminder's `pastebin_url` over. -/
def update_reminders_pastebin_url (active_reminders : Store)
    (updated_reminders : Store) : Store :=
  if updated_reminders.length = 0 then active_reminders
  else
    active_reminders.map fun p =>
      match alistLookup updated_reminders p.1 with
      | none => p
      | some ulist =>
          (p.1, p.2.map fun r =>
            match ulist.find? (fun u => u = r) with
            | some u => { r with pastebin_url := u.pastebin_url }
            | none => r)

theorem update_self_eta (r u : ContextualReminder) (h : u = r) :
    ({ r with pastebin_url := u.pastebin_url }) = r := by
  subst h
  rfl

/-- C3 (amended): the reconciliation matches stored reminders against
an uploaded reminder's post-upload value — the comparison includes the
freshly assigned `pastebin_url` — so at value level it copies the URL
only into reminders that already carry it and leaves every stored
reminder unchanged (in particular it never changes any other field and
never reverts a URL).  The new URLs reach the store not here but
through `create_pastebin_entries` mutating the aliased reminder objects
in place. -/
theorem c3_update_pastebin_url_is_identity (active updated : Store) :
    update_reminders_pastebin_url active updated = active := by
  unfold update_reminders_pastebin_url
  split
  · rfl
  · have h : ∀ p ∈ active,
        (match alistLookup updated p.1 with
          | none => p
          | some ulist =>
              (p.1, p.2.map fun r =>
                match ulist.find? (fun u => u = r) with
                | some u => { r with pastebin_url := u.pastebin_url }
                | none => r)) = p := by
      intro p _
      cases hl : alistLookup updated p.1 with
      | none => rfl
      | some ulist =>
          have hmap : (p.2.map fun r =>
              match ulist.find? (fun u => u = r) with
              | some u => { r with pastebin_url := u.pastebin_url }
              | none => r) = p.2 := by
            have : ∀ r ∈ p.2,
                (match ulist.find? (fun u => u = r) with
                  | some u => { r with pastebin_url := u.pastebin_url }
                  | none => r) = r := by
              intro r _
              cases hf : ulist.find? (fun u => u = r) with
              | none => rfl
              | some u =>
                  have := List.find?_some hf
                  exact update_self_eta r u (by simpa using this)
            calc (p.2.map _) = p.2.map id := List.map_congr_left this
              _ = p.2 := List.map_id p.2
          simp only [hmap]
    calc active.map _ = active.map id := List.map_congr_left h
      _ = active := List.map_id active

/-- A stored reminder awaiting a paste URL. -/
def reminderPending : ContextualReminder :=
  { set_at := 0, due_at := 4000000000, nickname := "erin"
    channel := "#c", message := "water the plants", pastebin_url := ""
    has_context := true, context_lines := ["line"] }

/-- C3 (counterexample to the claim as stated): the store holds
`reminderPending` (empty `pastebin_url`); the upload step produces the
updated copy with `pastebin_url = "https://bin/x"`, whose pre-upload
value is exactly `reminderPending`.  The claim says reconciliation
copies the new URL into that stored reminder; instead the store is
returned unchanged — the stored reminder keeps its empty URL, because
the match compares against the post-upload value. -/
theorem c3_reconciliation_counterexample :
    create_pastebin_entries (fun _ => "https://bin/x")
        [("#c", [reminderPending])]
      = [("#c", [{ reminderPending with pastebin_url := "https://bin/x" }])] ∧
    update_reminders_pastebin_url [("#c", [reminderPending])]
        [("#c", [{ reminderPending with pastebin_url := "https://bin/x" }])]
      = [("#c", [reminderPending])] ∧
    reminderPending.pastebin_url = "" := by
  refine ⟨by decide, by decide, by decide⟩

/-! ## The delivery scheduler (`plugin.py`) -/

/-- The live transport state the deliverability check consults:
the hostmasks of `bot.users` and, per joined channel of
`bot.channels`, the nicks present. -/
structure IrcState where
  userHostmasks : List String
  channels : List (String × List String)

/-- `can_deliver_reminder` (`plugin.py` lines 161-181): a reminder
whose channel starts `PRIVMSG` is deliverable when `channel[8:]` equals
some online user's hostmask; otherwise the reminder is deliverable when
the bot is in that channel and the recipient nick is present there. -/
def can_deliver_reminder (st : IrcState) (reminder : ContextualReminder) : Bool :=
  let channel := reminder.channel
  if channel.take 7 = "PRIVMSG" then
    st.userHostmasks.any fun hm => channel.drop 8 = hm
  else
    match alistLookup st.channels channel with
    | some users => users.contains reminder.nickname
    | none => false

/-- The per-reminder test of the scheduler loop (`plugin.py` line 144):
`reminder.due_at < reminders_as_at and can_deliver_reminder(...)`. -/
def shouldDeliver (now : DateTime) (st : IrcState)
    (r : ContextualReminder) : Bool :=
  decide (r.due_at < now) && can_deliver_reminder st r

/-- The inner loop of `check_ctx_reminder_jobs` (`plugin.py` lines
143-154) over one channel's list, with CPython's list-iterator
semantics made explicit: the iterator yields the element at its
counter and increments the counter; `list.remove` deletes the first
element equal (by value) to the delivered reminder, shifting the rest
left, so the element that followed the removed one is skipped.
Returns (delivered reminders in delivery order, final list). -/
def schedLoop (p : ContextualReminder → Bool)
    (l : List ContextualReminder) (i : Nat) :
    List ContextualReminder × List ContextualReminder :=
  if h : i < l.length then
    let r := l.get ⟨i, h⟩
    if p r then
      let res := schedLoop p (l.erase r) (i + 1)
      (r :: res.1, res.2)
    else
      schedLoop p l (i + 1)
  else ([], l)
termination_by l.length - i
decreasing_by
  · have hm : ∀ (j : Fin l.length), (l.erase (l.get j)).length = l.length - 1 :=
      fun j => List.length_erase_of_mem (l.get_mem j.1 j.2)
    simp only [hm]
    omega
  · omega

/-- One scheduler pass over one channel's reminder list. -/
def check_channel_reminders (now : DateTime) (st : IrcState)
    (channel_reminders : List ContextualReminder) :
    List ContextualReminder × List ContextualReminder :=
  schedLoop (shouldDeliver now st) channel_reminders 0

/-- `check_ctx_reminder_jobs` (`plugin.py` lines 126-158) on the store:
skip everything when the backend is disconnected or no channel is
joined; otherwise run the delivery loop on every channel's list. -/
def check_ctx_reminder_jobs (connected : Bool) (now : DateTime)
    (st : IrcState) (active_reminders : Store) : Store :=
  if ¬connected ∨ st.channels.length = 0 then active_reminders
  else
    active_reminders.map fun p =>
      (p.1, (check_channel_reminders now st p.2).2)

/-- The store after `n` scheduler passes over one channel's list. -/
def iterSched (p : ContextualReminder → Bool) :
    Nat → List ContextualReminder → List ContextualReminder
  | 0, l => l
  | n + 1, l => iterSched p n (schedLoop p l 0).2

/-- Everything delivered during the first `n` scheduler passes. -/
def deliveredUpTo (p : ContextualReminder → Bool) :
    Nat → List ContextualReminder → List ContextualReminder
  | 0, _ => []
  | n + 1, l => (schedLoop p l 0).1 ++ deliveredUpTo p n (schedLoop p l 0).2

theorem schedLoop_delivered_sound (p : ContextualReminder → Bool)
    (l : List ContextualReminder) (i : Nat) :
    ∀ r ∈ (schedLoop p l i).1, p r = true := by
  induction l, i using schedLoop.induct p with
  | case1 l i h r hp ih =>
      intro x hx
      rw [schedLoop, dif_pos h, if_pos hp] at hx
      rcases List.mem_cons.mp hx with hx | hx
      · exact hx ▸ hp
      · exact ih x hx
  | case2 l i h r hp ih =>
      intro x hx
      rw [schedLoop, dif_pos h, if_neg hp] at hx
      exact ih x hx
  | case3 l i h =>
      intro x hx
      rw [schedLoop, dif_neg h] at hx
      cases hx

theorem schedLoop_perm (p : ContextualReminder → Bool)
    (l : List ContextualReminder) (i : Nat) :
    l.Perm ((schedLoop p l i).1 ++ (schedLoop p l i).2) := by
  induction l, i using schedLoop.induct p with
  | case1 l i h r hp ih =>
      rw [schedLoop, dif_pos h, if_pos hp]
      show l.Perm ((r :: (schedLoop p (l.erase r) (i + 1)).1)
        ++ (schedLoop p (l.erase r) (i + 1)).2)
      exact List.Perm.trans (List.perm_cons_erase (l.get_mem i h))
        (List.Perm.cons r ih)
  | case2 l i h r hp ih =>
      rw [schedLoop, dif_pos h, if_neg hp]
      exact ih
  | case3 l i h =>
      rw [schedLoop, dif_neg h]
      exact List.Perm.refl _

theorem schedLoop_progress (p : ContextualReminder → Bool)
    (l : List ContextualReminder) (i : Nat)
    (hex : ∃ r ∈ l.drop i, p r = true) : (schedLoop p l i).1 ≠ [] := by
  induction l, i using schedLoop.induct p with
  | case1 l i h r hp ih =>
      rw [schedLoop, dif_pos h, if_pos hp]
      simp
  | case2 l i h r hp ih =>
      rw [schedLoop, dif_pos h, if_neg hp]
      apply ih
      obtain ⟨x, hx, hpx⟩ := hex
      rw [List.drop_eq_getElem_cons h] at hx
      rcases List.mem_cons.mp hx with hx | hx
      · exact absurd hpx (hx ▸ hp)
      · exact ⟨x, hx, hpx⟩
  | case3 l i h =>
      obtain ⟨x, hx, _⟩ := hex
      rw [List.drop_eq_nil_of_le (le_of_not_lt h)] at hx
      cases hx

theorem sched_no_p_case (p : ContextualReminder → Bool)
    (l : List ContextualReminder) (hz : l.countP p = 0) :
    (∀ r ∈ iterSched p 0 l, p r = false) ∧
      (deliveredUpTo p 0 l).Perm (l.filter p) := by
  have hall : ∀ a ∈ l, ¬ p a = true := List.countP_eq_zero.mp hz
  constructor
  · intro r hr
    cases hpr : p r with
    | false => rfl
    | true => exact absurd hpr (hall r hr)
  · have : l.filter p = [] := List.filter_eq_nil_iff.mpr hall
    rw [this]
    exact List.Perm.refl _

theorem sched_eventually (p : ContextualReminder → Bool) (c : Nat) :
    ∀ l : List ContextualReminder, l.countP p ≤ c →
      ∃ n, (∀ r ∈ iterSched p n l, p r = false) ∧
        (deliveredUpTo p n l).Perm (l.filter p) := by
  induction c with
  | zero =>
      intro l hc
      exact ⟨0, sched_no_p_case p l (Nat.le_zero.mp hc)⟩
  | succ c ih =>
      intro l hc
      rcases Nat.eq_zero_or_pos (l.countP p) with hz | hpos
      · exact ⟨0, sched_no_p_case p l hz⟩
      · have hperm := schedLoop_perm p l 0
        have hsound := schedLoop_delivered_sound p l 0
        have hprog : (schedLoop p l 0).1 ≠ [] := by
          apply schedLoop_progress p l 0
          obtain ⟨a, ha, hpa⟩ := List.countP_pos_iff.mp hpos
          exact ⟨a, by simpa using ha, hpa⟩
        have hcount : l.countP p
            = (schedLoop p l 0).1.length + (schedLoop p l 0).2.countP p := by
          rw [hperm.countP_eq p, List.countP_append,
            List.countP_eq_length.mpr hsound]
        have hrem : (schedLoop p l 0).2.countP p ≤ c := by
          have hd : 1 ≤ (schedLoop p l 0).1.length :=
            List.length_pos.mpr hprog
          omega
        obtain ⟨n, hn1, hn2⟩ := ih (schedLoop p l 0).2 hrem
        refine ⟨n + 1, ?_, ?_⟩
        · intro r hr
          exact hn1 r hr
        · have hfd : (schedLoop p l 0).1.filter p = (schedLoop p l 0).1 :=
            List.filter_eq_self.mpr hsound
          show ((schedLoop p l 0).1
            ++ deliveredUpTo p n (schedLoop p l 0).2).Perm (l.filter p)
          refine List.Perm.trans
            (List.Perm.append_left (schedLoop p l 0).1 hn2) ?_
          have hsplit : (schedLoop p l 0).1 ++ (schedLoop p l 0).2.filter p
              = ((schedLoop p l 0).1 ++ (schedLoop p l 0).2).filter p := by
            rw [List.filter_append, hfd]
          rw [hsplit]
          exact (hperm.filter p).symm

theorem schedLoop_skip_head (p : ContextualReminder → Bool) :
    ∀ (n : Nat) (l : List ContextualReminder) (i : Nat)
      (x : ContextualReminder),
      l.length - i ≤ n → x ∉ l →
      x ∉ (schedLoop p (x :: l) (i + 1)).1 ∧
        x ∈ (schedLoop p (x :: l) (i + 1)).2 := by
  intro n
  induction n with
  | zero =>
      intro l i x hn hx
      have hni : ¬ (i + 1 < (x :: l).length) := by
        simp only [List.length_cons]
        omega
      rw [schedLoop, dif_neg hni]
      exact ⟨List.not_mem_nil x, List.mem_cons_self x l⟩
  | succ n ih =>
      intro l i x hn hx
      by_cases h : i + 1 < (x :: l).length
      · have hil : i < l.length := by
          simp only [List.length_cons] at h
          omega
        rw [schedLoop, dif_pos h]
        show x ∉ (if p (l.get ⟨i, hil⟩) then
            (l.get ⟨i, hil⟩ ::
              (schedLoop p ((x :: l).erase (l.get ⟨i, hil⟩)) (i + 1 + 1)).1,
              (schedLoop p ((x :: l).erase (l.get ⟨i, hil⟩)) (i + 1 + 1)).2)
          else schedLoop p (x :: l) (i + 1 + 1)).1 ∧
          x ∈ (if p (l.get ⟨i, hil⟩) then
            (l.get ⟨i, hil⟩ ::
              (schedLoop p ((x :: l).erase (l.get ⟨i, hil⟩)) (i + 1 + 1)).1,
              (schedLoop p ((x :: l).erase (l.get ⟨i, hil⟩)) (i + 1 + 1)).2)
          else schedLoop p (x :: l) (i + 1 + 1)).2
        set r := l.get ⟨i, hil⟩ with hrdef
        have hrl : r ∈ l := l.get_mem i hil
        have hrx : x ≠ r := fun hxr => hx (hxr ▸ hrl)
        by_cases hp : p r = true
        · rw [if_pos hp]
          have herase : (x :: l).erase r = x :: l.erase r :=
            List.erase_cons_tail (by simp only [beq_iff_eq]; exact hrx)
          rw [herase]
          have hxe : x ∉ l.erase r := fun hm => hx (List.mem_of_mem_erase hm)
          have hlen : (l.erase r).length - (i + 1) ≤ n := by
            have := List.length_erase_of_mem hrl
            omega
          obtain ⟨h1, h2⟩ := ih (l.erase r) (i + 1) x hlen hxe
          constructor
          · intro hmem
            rcases List.mem_cons.mp hmem with heq | hmem
            · exact hrx heq
            · exact h1 hmem
          · exact h2
        · rw [if_neg hp]
          exact ih l (i + 1) x (by omega) hx
      · rw [schedLoop, dif_neg h]
        exact ⟨List.not_mem_nil x, List.mem_cons_self x l⟩

/-! ## Claim C9: scheduler soundness, removal and eventual delivery -/

/-- C9: over one channel's list, (i) every reminder the scheduler pass
delivers was strictly due before the pass's current time and passed the
deliverability check; (ii) the final list together with the delivered
reminders is a permutation of the original — exactly the delivered
reminders are removed, in the same run, and nothing else changes;
(iii) with the clock and presence oracle held fixed, some finite number
of passes reaches a state with no due-and-deliverable reminder left,
having delivered exactly the due-and-deliverable reminders of the
original list (each exactly once — never twice). -/
theorem c9_scheduler_properties (now : DateTime) (st : IrcState)
    (l : List ContextualReminder) :
    (∀ r ∈ (check_channel_reminders now st l).1,
        r.due_at < now ∧ can_deliver_reminder st r = true) ∧
    l.Perm ((check_channel_reminders now st l).1
      ++ (check_channel_reminders now st l).2) ∧
    (∃ n, (∀ r ∈ iterSched (shouldDeliver now st) n l,
        shouldDeliver now st r = false) ∧
      (deliveredUpTo (shouldDeliver now st) n l).Perm
        (l.filter (shouldDeliver now st))) := by
  refine ⟨?_, schedLoop_perm _ l 0,
    sched_eventually _ (l.countP (shouldDeliver now st)) l le_rfl⟩
  intro r hr
  have hs := schedLoop_delivered_sound (shouldDeliver now st) l 0 r hr
  simp only [shouldDeliver, Bool.and_eq_true, decide_eq_true_eq] at hs
  exact hs

/-- The live-state fixture: one online user `fred` present in `#chan`. -/
def stDemo : IrcState :=
  { userHostmasks := ["fred!fu@host-f"], channels := [("#chan", ["fred"])] }

/-- A reminder for `fred` in `#chan`, due at time 5. -/
def reminderDueA : ContextualReminder :=
  { set_at := 0, due_at := 5, nickname := "fred", channel := "#chan"
    message := "first", pastebin_url := "", has_context := false
    context_lines := [] }

/-- Witness for `c9_scheduler_properties`: at time 10 the pass over
`[reminderDueA]` delivers it, and indeed it was due and deliverable. -/
theorem c9_scheduler_properties_witness :
    reminderDueA.due_at < 10 ∧ can_deliver_reminder stDemo reminderDueA = true :=
  (c9_scheduler_properties 10 stDemo [reminderDueA]).1 reminderDueA
    (by
      simp [check_channel_reminders, schedLoop, shouldDeliver,
        can_deliver_reminder, stDemo, reminderDueA, alistLookup, List.erase]
      decide)

/-! ## Claim C10: the iteration skip after an in-place removal -/

theorem schedLoop_cons_zero_pos (p : ContextualReminder → Bool)
    (r : ContextualReminder) (l : List ContextualReminder)
    (hp : p r = true) :
    schedLoop p (r :: l) 0
      = (r :: (schedLoop p l 1).1, (schedLoop p l 1).2) := by
  have h0 : 0 < (r :: l).length := by simp
  rw [schedLoop, dif_pos h0]
  show (if p r then
      (r :: (schedLoop p ((r :: l).erase r) 1).1,
        (schedLoop p ((r :: l).erase r) 1).2)
    else schedLoop p (r :: l) 1)
    = (r :: (schedLoop p l 1).1, (schedLoop p l 1).2)
  rw [if_pos hp, List.erase_cons_head]

/-- A second due reminder for `fred` in `#chan`. -/
def reminderDueB : ContextualReminder :=
  { set_at := 0, due_at := 5, nickname := "fred", channel := "#chan"
    message := "second", pastebin_url := "", has_context := false
    context_lines := [] }

/-- A third due reminder for `fred` in `#chan`. -/
def reminderDueC : ContextualReminder :=
  { set_at := 0, due_at := 5, nickname := "fred", channel := "#chan"
    message := "third", pastebin_url := "", has_context := false
    context_lines := [] }

/-- C10 (counterexample to the claim as stated): in the channel list
`[A, B, C]` — all three due at time 10 and deliverable — the pair
`(B, C)` is consecutive and both due-and-deliverable, yet the single
pass delivers `A` and `C` and leaves `B`: the second member of the
pair is delivered and the first remains, contradicting the claim that
only the first of such a pair is delivered and the second left.
(After delivering `A` the removal shifts the list, so the iteration
skips `B` and next visits `C`.) -/
theorem c10_skip_counterexample :
    shouldDeliver 10 stDemo reminderDueB = true ∧
    shouldDeliver 10 stDemo reminderDueC = true ∧
    (check_channel_reminders 10 stDemo
        [reminderDueA, reminderDueB, reminderDueC]).1
      = [reminderDueA, reminderDueC] ∧
    (check_channel_reminders 10 stDemo
        [reminderDueA, reminderDueB, reminderDueC]).2
      = [reminderDueB] := by
  have e2 : schedLoop (shouldDeliver 10 stDemo)
      [reminderDueB, reminderDueC] 1 = ([reminderDueC], [reminderDueB]) := by
    have hl : 1 < ([reminderDueB, reminderDueC] :
        List ContextualReminder).length := by norm_num
    rw [schedLoop, dif_pos hl]
    show (if shouldDeliver 10 stDemo reminderDueC then
        (reminderDueC ::
          (schedLoop (shouldDeliver 10 stDemo)
            ([reminderDueB, reminderDueC].erase reminderDueC) 2).1,
          (schedLoop (shouldDeliver 10 stDemo)
            ([reminderDueB, reminderDueC].erase reminderDueC) 2).2)
      else schedLoop (shouldDeliver 10 stDemo)
        [reminderDueB, reminderDueC] 2)
      = ([reminderDueC], [reminderDueB])
    rw [if_pos (by decide),
      show [reminderDueB, reminderDueC].erase reminderDueC = [reminderDueB]
        by decide,
      schedLoop, dif_neg (by norm_num)]
  have e1 : check_channel_reminders 10 stDemo
      [reminderDueA, reminderDueB, reminderDueC]
      = ([reminderDueA, reminderDueC], [reminderDueB]) := by
    show schedLoop (shouldDeliver 10 stDemo)
        (reminderDueA :: [reminderDueB, reminderDueC]) 0
      = ([reminderDueA, reminderDueC], [reminderDueB])
    rw [schedLoop_cons_zero_pos (shouldDeliver 10 stDemo) reminderDueA
      [reminderDueB, reminderDueC] (by decide), e2]
  exact ⟨by decide, by decide, by rw [e1], by rw [e1]⟩

/-- C10 (amended): when a channel's list begins with two consecutive
due-and-deliverable reminders whose values differ and whose second
member does not recur later in the list, one pass delivers and removes
the first of the pair, and the in-place removal shifts the list so the
iteration skips the second: it is not delivered in this pass and stays
in the store for a later run.  (Placement matters — as the
counterexample shows, a due-and-deliverable reminder before the pair
makes the skip land on the pair's first member instead.) -/
theorem c10_skip_after_delivery (now : DateTime) (st : IrcState)
    (r1 r2 : ContextualReminder) (rest : List ContextualReminder)
    (h1 : shouldDeliver now st r1 = true)
    (h2 : shouldDeliver now st r2 = true)
    (hne : r1 ≠ r2) (hnr : r2 ∉ rest) :
    r1 ∈ (check_channel_reminders now st (r1 :: r2 :: rest)).1 ∧
    r2 ∉ (check_channel_reminders now st (r1 :: r2 :: rest)).1 ∧
    r2 ∈ (check_channel_reminders now st (r1 :: r2 :: rest)).2 := by
  unfold check_channel_reminders
  rw [schedLoop_cons_zero_pos (shouldDeliver now st) r1 (r2 :: rest) h1]
  obtain ⟨hs1, hs2⟩ :=
    schedLoop_skip_head (shouldDeliver now st) rest.length rest 0 r2
      le_rfl hnr
  refine ⟨List.mem_cons_self _ _, ?_, hs2⟩
  intro hmem
  rcases List.mem_cons.mp hmem with heq | hmem
  · exact hne heq.symm
  · exact hs1 hmem

/-- Witness for `c10_skip_after_delivery`: the two-element list
`[reminderDueA, reminderDueB]`, both due and deliverable at time 10 —
the pass delivers the first and leaves the second in the store. -/
theorem c10_skip_after_delivery_witness :
    reminderDueA ∈
      (check_channel_reminders 10 stDemo [reminderDueA, reminderDueB]).1 ∧
    reminderDueB ∉
      (check_channel_reminders 10 stDemo [reminderDueA, reminderDueB]).1 ∧
    reminderDueB ∈
      (check_channel_reminders 10 stDemo [reminderDueA, reminderDueB]).2 :=
  c10_skip_after_delivery 10 stDemo reminderDueA reminderDueB []
    (by decide) (by decide) (by decide) (by decide)

/-! ## Claim C7: the duration-expression parser

`IN_RE` (`ctx_service.py` lines 35-44) is the anchored pattern
`(?:days|hours|minutes|seconds)\s+(?P<text>\S+.*)` where the four tier
alternatives are tried in order and each tier is a required
`(\d+)<unit>` followed by optional `(?:\s?(\d+)<unit>)?` groups.  The
embedding below implements the backtracking behaviour of `re.match` on
this pattern directly over `List Char`:

* `(\d+)<unit>` is deterministic — the digit run is maximal (shorter
  runs would put a digit where `<unit>` must match) and must be
  followed by the unit letter;
* `\s?` before a digit group is deterministic — when the next char is
  whitespace it must be consumed (the no-space branch would need a
  digit where the whitespace is);
* each optional group is tried matched-first, and the regex engine
  falls back to skipping it when the rest of the pattern fails — so
  the alternatives are enumerated in that order and the first one whose
  tail `\s+(?P<text>\S+.*)` succeeds wins;
* `\s+` consumes maximal whitespace (backtracking would put `\S` on a
  whitespace char) and `\S+.*` then captures everything up to the first
  newline.
-/

/-- The code points CPython's `re` counts as `\s` in a `str` pattern
compiled without `re.ASCII` — and `IN_RE` is such a pattern: the ASCII
whitespace and separator controls plus the Unicode space characters
(NBSP, ogham space, the en/em spaces, line and paragraph separator,
narrow no-break space, medium mathematical space, ideographic space). -/
def pySpaceCodes : List Nat :=
  [0x9, 0xa, 0xb, 0xc, 0xd, 0x1c, 0x1d, 0x1e, 0x1f, 0x20, 0x85, 0xa0,
   0x1680, 0x2000, 0x2001, 0x2002, 0x2003, 0x2004, 0x2005, 0x2006,
   0x2007, 0x2008, 0x2009, 0x200a, 0x2028, 0x2029, 0x202f, 0x205f,
   0x3000]

/-- Python's `\s` (Unicode, as `IN_RE` uses it). -/
def pyIsSpace (c : Char) : Bool :=
  pySpaceCodes.contains c.toNat

/-- The starts of the 10-code-point Unicode decimal-digit (`Nd`)
blocks: every character CPython's `\d` matches lies in exactly one
block `[s, s + 9]` and carries the decimal value `code point - s`
(so `int` reads the Arabic-Indic digit U+0663 as 3). -/
def ndBlockStarts : List Nat :=
  [48, 1632, 1776, 1984, 2406, 2534, 2662, 2790, 2918, 3046, 3174,
   3302, 3430, 3558, 3664, 3792, 3872, 4160, 4240, 6112, 6160, 6470,
   6608, 6784, 6800, 6992, 7088, 7232, 7248, 42528, 43216, 43264,
   43472, 43504, 43600, 44016, 65296, 66720, 68912, 69734, 69872,
   69942, 70096, 70384, 70736, 70864, 71248, 71360, 71472, 71904,
   72016, 72784, 73040, 73120, 92768, 92864, 93008, 120782, 120792,
   120802, 120812, 120822, 123200, 123632, 125264, 130032]

/-- Python's `\d` (Unicode category `Nd`, as `IN_RE` uses it). -/
def pyIsDigit (c : Char) : Bool :=
  ndBlockStarts.any fun s => s ≤ c.toNat && c.toNat < s + 10

/-- The decimal value of one digit character, as `int()` reads it:
its offset inside its `Nd` block. -/
def pyDigitVal (c : Char) : Nat :=
  match ndBlockStarts.find? (fun s => s ≤ c.toNat && c.toNat < s + 10) with
  | some s => c.toNat - s
  | none => 0

/-- `int()` on a captured digit string. -/
def digitsVal (ds : List Char) : Nat :=
  ds.foldl (fun acc c => 10 * acc + pyDigitVal c) 0

/-- One `(\d+)<u>` group, optionally preceded by `\s?` (`sp`): consume
one whitespace char when present, then a non-empty maximal digit run,
then the unit letter.  Returns the captured digits and the rest. -/
def stripSep (sp : Bool) (s : List Char) : List Char :=
  if sp then
    match s with
    | c :: rest => if pyIsSpace c then rest else s
    | [] => s
  else s

def unitCapture (sp : Bool) (u : Char) (s : List Char) :
    Option (List Char × List Char) :=
  match (stripSep sp s).takeWhile pyIsDigit,
      (stripSep sp s).dropWhile pyIsDigit with
  | [], _ => none
  | ds, c :: rest => if c = u then some (ds, rest) else none
  | _, [] => none

/-- All ways the optional `(?:\s?(\d+)<u>)?` groups of one tier can
match a string, in the order the regex engine tries them
(group-present before group-skipped, left group varying slowest).
Each alternative carries the captures (`none` for a skipped group) and
the remaining input. -/
def optAlternatives : List Char → List Char →
    List (List (Option (List Char)) × List Char)
  | [], s => [([], s)]
  | u :: us, s =>
      (match unitCapture true u s with
       | some (ds, rest) =>
           (optAlternatives us rest).map fun q => (some ds :: q.1, q.2)
       | none => [])
      ++ (optAlternatives us s).map fun q => (none :: q.1, q.2)

/-- The pattern tail `\s+(?P<text>\S+.*)`: at least one whitespace
char, then the message — from the first non-whitespace char up to (not
including) the first newline. -/
def matchTail (s : List Char) : Option (List Char) :=
  match s with
  | c :: rest =>
      if pyIsSpace c then
        match rest.dropWhile pyIsSpace with
        | [] => none
        | m :: ms => some ((m :: ms).takeWhile fun ch => ch ≠ '\n')
      else none
  | [] => none

/-- `re.match` of one tier alternative: the required `(\d+)<req>`
group, then the first assignment of the optional groups whose tail
matches.  Returns (required capture, optional captures, message). -/
def matchTierFull (req : Char) (opts : List Char) (s : List Char) :
    Option (List Char × List (Option (List Char)) × List Char) :=
  match unitCapture false req s with
  | none => none
  | some (ds, rest) =>
      (optAlternatives opts rest).findSome? fun q =>
        match matchTail q.2 with
        | some msg => some (ds, q.1, msg)
        | none => none

/-- `dt.timedelta(days=.., seconds=.., minutes=.., hours=..)` in
microseconds. -/
def timedeltaOf (days hours minutes seconds : Nat) : TimeDelta :=
  ((((days * 24 + hours) * 60 + minutes) * 60 + seconds : Int)) * 1000000

/-- The value of the `i`-th optional capture (`int(i or 0)`). -/
def capVal (caps : List (Option (List Char))) (i : Nat) : Nat :=
  match caps.get? i with
  | some (some ds) => digitsVal ds
  | _ => 0

/-- `parse_reminder_string` (`ctx_service.py` lines 207-236): match
`IN_RE` — the four tiers in priority order — and build the `timedelta`
from the fields of the matching tier (absent fields are zero); a
non-matching input raises `ValueError`. -/
def parse_reminder_string (word_line : String) :
    Except Unit (TimeDelta × String) :=
  match matchTierFull 'd' ['h', 'm', 's'] word_line.data with
  | some (ds, caps, msg) =>
      Except.ok (timedeltaOf (digitsVal ds) (capVal caps 0) (capVal caps 1)
        (capVal caps 2), String.mk msg)
  | none =>
    match matchTierFull 'h' ['m', 's'] word_line.data with
    | some (ds, caps, msg) =>
        Except.ok (timedeltaOf 0 (digitsVal ds) (capVal caps 0)
          (capVal caps 1), String.mk msg)
    | none =>
      match matchTierFull 'm' ['s'] word_line.data with
      | some (ds, caps, msg) =>
          Except.ok (timedeltaOf 0 0 (digitsVal ds) (capVal caps 0),
            String.mk msg)
      | none =>
        match matchTierFull 's' [] word_line.data with
        | some (ds, _, msg) =>
            Except.ok (timedeltaOf 0 0 0 (digitsVal ds), String.mk msg)
        | none => Except.error ()

/-- A captured digit run: non-empty, every character a `\d` digit. -/
def GoodDigits (ds : List Char) : Prop :=
  ds ≠ [] ∧ ∀ c ∈ ds, pyIsDigit c = true

def GoodOpt : Option (List Char) → Prop
  | some ds => GoodDigits ds
  | none => True

def GoodMsg (msg : List Char) : Prop :=
  ∃ c t, msg = c :: t ∧ pyIsSpace c = false ∧ pyIsDigit c = false ∧
    '\n' ∉ msg

def renderOpt (u : Char) : Option (List Char) → List Char
  | some ds => ' ' :: (ds ++ [u])
  | none => []

def renderOpts : List Char → List (Option (List Char)) → List Char
  | u :: us, f :: fs => renderOpt u f ++ renderOpts us fs
  | _, _ => []

theorem takeWhile_digits_append (ds : List Char)
    (h : ∀ c ∈ ds, pyIsDigit c = true)
    (c : Char) (hc : pyIsDigit c = false) (rest : List Char) :
    (ds ++ c :: rest).takeWhile pyIsDigit = ds ∧
    (ds ++ c :: rest).dropWhile pyIsDigit = c :: rest := by
  induction ds with
  | nil => simp [List.takeWhile_cons, List.dropWhile_cons, hc]
  | cons d ds ih =>
      have hd := h d (List.mem_cons_self _ _)
      have hih := ih fun x hx => h x (List.mem_cons_of_mem _ hx)
      simp [List.takeWhile_cons, List.dropWhile_cons, hd, hih.1, hih.2]

theorem unitCapture_required (u : Char)
    (ds : List Char) (hds : GoodDigits ds)
    (hu : pyIsDigit u = false) (rest : List Char) :
    unitCapture false u (ds ++ u :: rest) = some (ds, rest) := by
  obtain ⟨hne, hall⟩ := hds
  obtain ⟨tw, dw⟩ := takeWhile_digits_append ds hall u hu rest
  unfold unitCapture
  rw [show stripSep false (ds ++ u :: rest) = ds ++ u :: rest from rfl, tw, dw]
  cases ds with
  | nil => exact absurd rfl hne
  | cons d ds' => simp

theorem unitCapture_required_wrong (u u' : Char) (hne : u' ≠ u)
    (ds : List Char) (hds : GoodDigits ds)
    (hu' : pyIsDigit u' = false) (rest : List Char) :
    unitCapture false u (ds ++ u' :: rest) = none := by
  obtain ⟨hn, hall⟩ := hds
  obtain ⟨tw, dw⟩ := takeWhile_digits_append ds hall u' hu' rest
  unfold unitCapture
  rw [show stripSep false (ds ++ u' :: rest) = ds ++ u' :: rest from rfl, tw, dw]
  cases ds with
  | nil => exact absurd rfl hn
  | cons d ds' => simp [hne]

theorem unitCapture_opt_sep (u : Char)
    (ds : List Char) (hds : GoodDigits ds)
    (hu : pyIsDigit u = false) (rest : List Char) :
    unitCapture true u (' ' :: (ds ++ u :: rest)) = some (ds, rest) := by
  obtain ⟨hne, hall⟩ := hds
  obtain ⟨tw, dw⟩ := takeWhile_digits_append ds hall u hu rest
  unfold unitCapture
  rw [show stripSep true (' ' :: (ds ++ u :: rest)) = ds ++ u :: rest from rfl,
    tw, dw]
  cases ds with
  | nil => exact absurd rfl hne
  | cons d ds' => simp

theorem unitCapture_opt_wrong (u u' : Char) (hne : u' ≠ u)
    (ds : List Char) (hds : GoodDigits ds)
    (hu' : pyIsDigit u' = false) (rest : List Char) :
    unitCapture true u (' ' :: (ds ++ u' :: rest)) = none := by
  obtain ⟨hn, hall⟩ := hds
  obtain ⟨tw, dw⟩ := takeWhile_digits_append ds hall u' hu' rest
  unfold unitCapture
  rw [show stripSep true (' ' :: (ds ++ u' :: rest)) = ds ++ u' :: rest from rfl,
    tw, dw]
  cases ds with
  | nil => exact absurd rfl hn
  | cons d ds' => simp [hne]

theorem unitCapture_opt_msg (u : Char) (c : Char) (hc : pyIsDigit c = false)
    (t : List Char) : unitCapture true u (' ' :: c :: t) = none := by
  unfold unitCapture
  rw [show stripSep true (' ' :: c :: t) = c :: t from rfl]
  rw [List.takeWhile_cons, hc]
  simp

theorem unitCapture_render_skip (u : Char)
    (us : List Char) (fs : List (Option (List Char))) (msg : List Char)
    (hnotin : u ∉ us) (hund : ∀ c ∈ us, pyIsDigit c = false)
    (hf : ∀ f ∈ fs, GoodOpt f)
    (hmsg : ∃ c t, msg = c :: t ∧ pyIsDigit c = false) :
    unitCapture true u (renderOpts us fs ++ ' ' :: msg) = none := by
  obtain ⟨c, t, rfl, hcd⟩ := hmsg
  induction us generalizing fs with
  | nil =>
      rw [show renderOpts [] fs = [] from rfl]
      exact unitCapture_opt_msg u c hcd t
  | cons u' us' ih =>
      cases fs with
      | nil =>
          rw [show renderOpts (u' :: us') [] = [] from rfl]
          exact unitCapture_opt_msg u c hcd t
      | cons f fs' =>
          cases f with
          | none =>
              rw [show renderOpts (u' :: us') (none :: fs')
                  = renderOpts us' fs' from by simp [renderOpts, renderOpt]]
              exact ih fs' (fun hm => hnotin (List.mem_cons_of_mem _ hm))
                (fun x hx => hund x (List.mem_cons_of_mem _ hx))
                (fun x hx => hf x (List.mem_cons_of_mem _ hx))
          | some ds =>
              have hshape : renderOpts (u' :: us') (some ds :: fs')
                    ++ ' ' :: c :: t
                  = ' ' :: (ds ++ u' :: (renderOpts us' fs' ++ ' ' :: c :: t)) := by
                simp [renderOpts, renderOpt]
              rw [hshape]
              have hneq : u' ≠ u := fun he => hnotin (he ▸ List.mem_cons_self _ _)
              exact unitCapture_opt_wrong u u' hneq ds
                (hf (some ds) (List.mem_cons_self _ _))
                (hund u' (List.mem_cons_self _ _)) _

theorem matchTail_sep_msg (c : Char) (t : List Char)
    (hc : pyIsSpace c = false) (hnl : '\n' ∉ c :: t) :
    matchTail (' ' :: c :: t) = some (c :: t) := by
  have h1 : matchTail (' ' :: c :: t)
      = (match (c :: t).dropWhile pyIsSpace with
         | [] => none
         | m :: ms => some ((m :: ms).takeWhile fun ch => decide (ch ≠ '\n'))) :=
    rfl
  have h2 : (c :: t).dropWhile pyIsSpace = c :: t := by
    rw [List.dropWhile_cons, hc]
    simp
  rw [h1, h2]
  show some ((c :: t).takeWhile fun ch => decide (ch ≠ '\n')) = some (c :: t)
  congr 1
  rw [List.takeWhile_eq_self_iff]
  intro x hx
  simp only [decide_eq_true_eq]
  intro he
  exact hnl (he ▸ hx)

/-- The continuation applied to each optional-groups alternative: match
the pattern tail on the alternative's rest and pass captures and
message on. -/
def tailArm {β : Type} (k : List (Option (List Char)) → List Char → β)
    (q : List (Option (List Char)) × List Char) : Option β :=
  match matchTail q.2 with
  | some m => some (k q.1 m)
  | none => none

theorem tailArm_cons {β : Type}
    (k : List (Option (List Char)) → List Char → β)
    (d : Option (List Char)) :
    (fun q => tailArm k ((fun q => (d :: q.1, q.2)) q))
      = tailArm fun caps m => k (d :: caps) m :=
  funext fun _ => rfl

theorem findSome?_append_split {α β : Type} (f : α → Option β)
    (l1 l2 : List α) :
    List.findSome? f (l1 ++ l2) =
      match List.findSome? f l1 with
      | some b => some b
      | none => List.findSome? f l2 := by
  induction l1 with
  | nil => simp [List.findSome?_nil]
  | cons a l ih =>
      rw [List.cons_append, List.findSome?_cons, List.findSome?_cons]
      cases f a <;> simp [ih]

theorem findSome?_over_map {α γ β : Type} (g : α → γ) (f : γ → Option β)
    (l : List α) :
    List.findSome? f (l.map g) = List.findSome? (fun a => f (g a)) l := by
  induction l with
  | nil => rfl
  | cons a l ih =>
      rw [List.map_cons, List.findSome?_cons, List.findSome?_cons]
      cases f (g a) <;> simp [ih]

theorem optAlt_first_success {β : Type}
    (us : List Char) (fs : List (Option (List Char))) (msg : List Char)
    (k : List (Option (List Char)) → List Char → β)
    (hlen : us.length = fs.length)
    (hnodup : us.Nodup) (hund : ∀ c ∈ us, pyIsDigit c = false)
    (hf : ∀ f ∈ fs, GoodOpt f) (hmsg : GoodMsg msg) :
    (optAlternatives us (renderOpts us fs ++ ' ' :: msg)).findSome?
      (tailArm k) = some (k fs msg) := by
  obtain ⟨c, t, hmt, hcs, hcd, hnl⟩ := hmsg
  subst hmt
  induction us generalizing fs k with
  | nil =>
      cases fs with
      | cons f fs' => cases hlen
      | nil =>
          rw [show renderOpts [] [] = [] from rfl]
          rw [show optAlternatives [] ([] ++ ' ' :: c :: t)
            = [([], ' ' :: c :: t)] from rfl]
          rw [List.findSome?_cons]
          have harm : tailArm k ([], ' ' :: c :: t) = some (k [] (c :: t)) := by
            simp only [tailArm]
            rw [matchTail_sep_msg c t hcs hnl]
          rw [harm]
  | cons u us' ih =>
      cases fs with
      | nil => cases hlen
      | cons f fs' =>
          have hlen' : us'.length = fs'.length := by simpa using hlen
          have hnodup' : us'.Nodup := (List.nodup_cons.mp hnodup).2
          have hnotin : u ∉ us' := (List.nodup_cons.mp hnodup).1
          have hund' : ∀ x ∈ us', pyIsDigit x = false :=
            fun x hx => hund x (List.mem_cons_of_mem _ hx)
          have hf' : ∀ x ∈ fs', GoodOpt x :=
            fun x hx => hf x (List.mem_cons_of_mem _ hx)
          cases f with
          | some ds =>
              have hshape : renderOpts (u :: us') (some ds :: fs') ++ ' ' :: c :: t
                  = ' ' :: (ds ++ u :: (renderOpts us' fs' ++ ' ' :: c :: t)) := by
                simp [renderOpts, renderOpt]
              rw [show optAlternatives (u :: us')
                    (renderOpts (u :: us') (some ds :: fs') ++ ' ' :: c :: t)
                  = (match unitCapture true u
                      (renderOpts (u :: us') (some ds :: fs') ++ ' ' :: c :: t) with
                     | some (es, rest) =>
                         (optAlternatives us' rest).map fun q =>
                           (some es :: q.1, q.2)
                     | none => [])
                    ++ (optAlternatives us'
                        (renderOpts (u :: us') (some ds :: fs') ++ ' ' :: c :: t)).map
                          fun q => (none :: q.1, q.2) from rfl]
              rw [hshape, unitCapture_opt_sep u ds
                (hf (some ds) (List.mem_cons_self _ _))
                (hund u (List.mem_cons_self _ _)) _]
              rw [show ((match (some (ds, renderOpts us' fs' ++ ' ' :: c :: t) :
                      Option (List Char × List Char)) with
                     | some (es, rest) =>
                         (optAlternatives us' rest).map fun q =>
                           ((some es : Option (List Char)) :: q.1, q.2)
                     | none => [])
                    : List (List (Option (List Char)) × List Char))
                  = (optAlternatives us'
                      (renderOpts us' fs' ++ ' ' :: c :: t)).map fun q =>
                        (some ds :: q.1, q.2) from rfl]
              rw [findSome?_append_split, findSome?_over_map, tailArm_cons]
              rw [ih fs' (fun caps m => k (some ds :: caps) m) hlen' hnodup'
                hund' hf']
          | none =>
              have hshape : renderOpts (u :: us') (none :: fs') ++ ' ' :: c :: t
                  = renderOpts us' fs' ++ ' ' :: c :: t := by
                simp [renderOpts, renderOpt]
              rw [show optAlternatives (u :: us')
                    (renderOpts (u :: us') (none :: fs') ++ ' ' :: c :: t)
                  = (match unitCapture true u
                      (renderOpts (u :: us') (none :: fs') ++ ' ' :: c :: t) with
                     | some (es, rest) =>
                         (optAlternatives us' rest).map fun q =>
                           (some es :: q.1, q.2)
                     | none => [])
                    ++ (optAlternatives us'
                        (renderOpts (u :: us') (none :: fs') ++ ' ' :: c :: t)).map
                          fun q => (none :: q.1, q.2) from rfl]
              rw [hshape, unitCapture_render_skip u us' fs' (c :: t) hnotin hund' hf'
                ⟨c, t, rfl, hcd⟩]
              rw [show ((match (none : Option (List Char × List Char)) with
                     | some (es, rest) =>
                         (optAlternatives us' (renderOpts us' fs' ++ ' ' :: c :: t)).map
                           fun q => ((some es : Option (List Char)) :: q.1, q.2)
                     | none => ([] : List (List (Option (List Char)) × List Char)))
                    : List (List (Option (List Char)) × List Char)) = [] from rfl]
              rw [List.nil_append, findSome?_over_map, tailArm_cons]
              rw [ih fs' (fun caps m => k (none :: caps) m) hlen' hnodup'
                hund' hf']

theorem matchTierFull_render (req : Char) (hreq : pyIsDigit req = false)
    (opts : List Char) (fs : List (Option (List Char)))
    (ds : List Char) (hds : GoodDigits ds)
    (hlen : opts.length = fs.length) (hnodup : opts.Nodup)
    (hund : ∀ c ∈ opts, pyIsDigit c = false)
    (hf : ∀ f ∈ fs, GoodOpt f) (msg : List Char) (hmsg : GoodMsg msg) :
    matchTierFull req opts (ds ++ req :: (renderOpts opts fs ++ ' ' :: msg))
      = some (ds, fs, msg) := by
  unfold matchTierFull
  rw [unitCapture_required req ds hds hreq _]
  show (optAlternatives opts (renderOpts opts fs ++ ' ' :: msg)).findSome?
      (fun q => match matchTail q.2 with
        | some m => some (ds, q.1, m)
        | none => none) = some (ds, fs, msg)
  rw [show (fun q : List (Option (List Char)) × List Char =>
        match matchTail q.2 with
        | some m => some (ds, q.1, m)
        | none => none) = tailArm (fun caps m => (ds, caps, m))
    from funext fun _ => rfl]
  exact optAlt_first_success opts fs msg _ hlen hnodup hund hf hmsg

theorem matchTierFull_wrong_req (req u' : Char) (hne : u' ≠ req)
    (hu' : pyIsDigit u' = false) (opts : List Char)
    (ds : List Char) (hds : GoodDigits ds) (rest : List Char) :
    matchTierFull req opts (ds ++ u' :: rest) = none := by
  unfold matchTierFull
  rw [unitCapture_required_wrong req u' hne ds hds hu' rest]

def optDigits : Option (List Char) → Nat
  | some ds => digitsVal ds
  | none => 0

theorem capVal_cons_zero (f : Option (List Char))
    (fs : List (Option (List Char))) : capVal (f :: fs) 0 = optDigits f := by
  cases f <;> rfl

theorem capVal_cons_succ (f : Option (List Char))
    (fs : List (Option (List Char))) (i : Nat) :
    capVal (f :: fs) (i + 1) = capVal fs i := rfl

inductive TierInput where
  | days (d : List Char) (oh om os : Option (List Char))
  | hours (hh : List Char) (om os : Option (List Char))
  | minutes (mm : List Char) (os : Option (List Char))
  | seconds (ss : List Char)

def TierInput.Good : TierInput → Prop
  | days d oh om os => GoodDigits d ∧ GoodOpt oh ∧ GoodOpt om ∧ GoodOpt os
  | hours hh om os => GoodDigits hh ∧ GoodOpt om ∧ GoodOpt os
  | minutes mm os => GoodDigits mm ∧ GoodOpt os
  | seconds ss => GoodDigits ss

def TierInput.render : TierInput → List Char
  | days d oh om os => d ++ 'd' :: renderOpts ['h', 'm', 's'] [oh, om, os]
  | hours hh om os => hh ++ 'h' :: renderOpts ['m', 's'] [om, os]
  | minutes mm os => mm ++ 'm' :: renderOpts ['s'] [os]
  | seconds ss => ss ++ 's' :: renderOpts [] []

def TierInput.delta : TierInput → TimeDelta
  | days d oh om os =>
      timedeltaOf (digitsVal d) (optDigits oh) (optDigits om) (optDigits os)
  | hours hh om os => timedeltaOf 0 (digitsVal hh) (optDigits om) (optDigits os)
  | minutes mm os => timedeltaOf 0 0 (digitsVal mm) (optDigits os)
  | seconds ss => timedeltaOf 0 0 0 (digitsVal ss)

/-- C7: for every input built from a well-formed expression of exactly
one duration tier (`days[h][m][s]`, `hours[m][s]`, `minutes[s]` or
`seconds`, single spaces between present fields) followed by a space
and a non-empty message (whose first character is neither whitespace
nor a digit, and which contains no newline), parsing returns the
duration summing exactly the magnitude fields readable at that tier —
omitted fields contribute zero — paired with the remaining text as the
message; and in particular `"2h 30m extra text"` parses to the duration
2h30m0s (9 000 seconds) and the message `"extra text"`. -/
theorem c7_parser_tiers (t : TierInput) (msg : List Char)
    (ht : t.Good) (hmsg : GoodMsg msg) :
    parse_reminder_string (String.mk (t.render ++ ' ' :: msg))
      = Except.ok (t.delta, String.mk msg) ∧
    parse_reminder_string "2h 30m extra text"
      = Except.ok (9000000000, "extra text") := by
  refine ⟨?_, rfl⟩
  cases t with
  | days d oh om os =>
      obtain ⟨hd, h1, h2, h3⟩ := ht
      have hf3 : ∀ f ∈ [oh, om, os], GoodOpt f := by
        intro f hfm
        rcases List.mem_cons.mp hfm with rfl | hfm
        · exact h1
        rcases List.mem_cons.mp hfm with rfl | hfm
        · exact h2
        rcases List.mem_cons.mp hfm with rfl | hfm
        · exact h3
        · cases hfm
      unfold parse_reminder_string
      rw [show (String.mk (TierInput.render (TierInput.days d oh om os)
            ++ ' ' :: msg)).data
          = d ++ 'd' :: (renderOpts ['h', 'm', 's'] [oh, om, os] ++ ' ' :: msg)
        from by simp [TierInput.render]]
      rw [matchTierFull_render 'd' (by decide) ['h', 'm', 's'] [oh, om, os]
        d hd rfl (by decide) (by decide) hf3 msg hmsg]
      show Except.ok (timedeltaOf (digitsVal d) (capVal [oh, om, os] 0)
          (capVal [oh, om, os] 1) (capVal [oh, om, os] 2), String.mk msg)
        = Except.ok (TierInput.delta (TierInput.days d oh om os), String.mk msg)
      simp only [capVal_cons_zero, capVal_cons_succ, TierInput.delta]
  | hours hh om os =>
      obtain ⟨hd, h1, h2⟩ := ht
      have hf2 : ∀ f ∈ [om, os], GoodOpt f := by
        intro f hfm
        rcases List.mem_cons.mp hfm with rfl | hfm
        · exact h1
        rcases List.mem_cons.mp hfm with rfl | hfm
        · exact h2
        · cases hfm
      unfold parse_reminder_string
      rw [show (String.mk (TierInput.render (TierInput.hours hh om os)
            ++ ' ' :: msg)).data
          = hh ++ 'h' :: (renderOpts ['m', 's'] [om, os] ++ ' ' :: msg)
        from by simp [TierInput.render]]
      rw [matchTierFull_wrong_req 'd' 'h' (by decide) (by decide) _ hh hd _]
      rw [matchTierFull_render 'h' (by decide) ['m', 's'] [om, os]
        hh hd rfl (by decide) (by decide) hf2 msg hmsg]
      show Except.ok (timedeltaOf 0 (digitsVal hh) (capVal [om, os] 0)
          (capVal [om, os] 1), String.mk msg)
        = Except.ok (TierInput.delta (TierInput.hours hh om os), String.mk msg)
      simp only [capVal_cons_zero, capVal_cons_succ, TierInput.delta]
  | minutes mm os =>
      obtain ⟨hd, h1⟩ := ht
      have hf1 : ∀ f ∈ [os], GoodOpt f := by
        intro f hfm
        rcases List.mem_cons.mp hfm with rfl | hfm
        · exact h1
        · cases hfm
      unfold parse_reminder_string
      rw [show (String.mk (TierInput.render (TierInput.minutes mm os)
            ++ ' ' :: msg)).data
          = mm ++ 'm' :: (renderOpts ['s'] [os] ++ ' ' :: msg)
        from by simp [TierInput.render]]
      rw [matchTierFull_wrong_req 'd' 'm' (by decide) (by decide) _ mm hd _]
      rw [matchTierFull_wrong_req 'h' 'm' (by decide) (by decide) _ mm hd _]
      rw [matchTierFull_render 'm' (by decide) ['s'] [os]
        mm hd rfl (by decide) (by decide) hf1 msg hmsg]
      show Except.ok (timedeltaOf 0 0 (digitsVal mm) (capVal [os] 0),
          String.mk msg)
        = Except.ok (TierInput.delta (TierInput.minutes mm os), String.mk msg)
      simp only [capVal_cons_zero, TierInput.delta]
  | seconds ss =>
      have hd : GoodDigits ss := ht
      unfold parse_reminder_string
      rw [show (String.mk (TierInput.render (TierInput.seconds ss)
            ++ ' ' :: msg)).data
          = ss ++ 's' :: (renderOpts [] [] ++ ' ' :: msg)
        from by simp [TierInput.render, renderOpts]]
      rw [matchTierFull_wrong_req 'd' 's' (by decide) (by decide) _ ss hd _]
      rw [matchTierFull_wrong_req 'h' 's' (by decide) (by decide) _ ss hd _]
      rw [matchTierFull_wrong_req 'm' 's' (by decide) (by decide) _ ss hd _]
      rw [matchTierFull_render 's' (by decide) [] []
        ss hd rfl (by decide) (by decide) (by intro f hfm; cases hfm) msg hmsg]
      rfl

/-- Witness for `c7_parser_tiers`: the hours-tier input
`"2h 30m extra text"` — required field `2h`, optional `30m`, no
seconds — parses to 2h30m and the message `"extra text"`. -/
theorem c7_parser_tiers_witness :
    parse_reminder_string (String.mk
        ((TierInput.hours ['2'] (some ['3', '0']) none).render
          ++ ' ' :: "extra text".data))
      = Except.ok ((TierInput.hours ['2'] (some ['3', '0']) none).delta,
          String.mk "extra text".data) ∧
    parse_reminder_string "2h 30m extra text"
      = Except.ok (9000000000, "extra text") :=
  c7_parser_tiers (TierInput.hours ['2'] (some ['3', '0']) none)
    "extra text".data
    ⟨⟨by decide, by decide⟩, ⟨by decide, by decide⟩, trivial⟩
    ⟨'e', "xtra text".data, rfl, by decide, by decide, by decide⟩

end CtxReminders
